import Mathlib

/-!
Shallow embedding of `hwy/contrib/intdiv/intdiv-inl.h` (integer division by
invariant integers using multiplication, after Granlund and Montgomery).

Lane vectors are lane-independent (every operation used here is element-wise
with a broadcast parameter block), so the embedding models one lane:
a `uint W` lane is a `Nat` below `2^W`, an `int W` lane is an `Int` in
`[-2^(W-1), 2^(W-1))`.  Machine wrap-around is written out explicitly
(`% 2^w` on `Nat`, `wrapS w` on `Int`).  A logical right shift by `k` is
division by `2^k`; an arithmetic right shift by `k` is floor division
(`Int.ediv`, whose value on a positive divisor is the floor) by `2^k`;
a saturating demotion is a clamp.  The target-conditional
`HWY_INTDIV_SCALAR64` scalar fallback is disabled (the default on x86
targets), and `ShiftRightUniform` is modelled by its portable fallback
branch, which is the target-independent definition of the operation.
-/

namespace Intdiv

/-- Models `detail::IsPow2`: `x > 0 && (x & (x - 1)) == 0`. -/
def isPow2 (x : Nat) : Bool :=
  decide (0 < x) && decide (x &&& (x - 1) = 0)

/-- Fuel-indexed loop of the portable branch of `detail::CountTrailingZeros32`:
`while ((x & 1) == 0) { x >>= 1; count++; }`.  The fuel (32) bounds the
iteration count; the loop is only entered with `x != 0`, so at most 31
iterations happen. -/
def ctzLoop : Nat → Nat → Nat
  | 0, _ => 0
  | fuel + 1, x => if x % 2 = 0 then ctzLoop fuel (x / 2) + 1 else 0

/-- Models `detail::CountTrailingZeros32` (portable branch). -/
def countTrailingZeros32 (x : Nat) : Nat :=
  if x = 0 then 32 else ctzLoop 32 x

/-- Models `detail::CountTrailingZeros64` (portable branch): split into the
low and high 32-bit halves. -/
def countTrailingZeros64 (x : Nat) : Nat :=
  if x = 0 then 64
  else
    let lo := x % 2 ^ 32
    if lo ≠ 0 then countTrailingZeros32 lo
    else 32 + countTrailingZeros32 (x / 2 ^ 32)

/-- Models `detail::LeadingZeroCount32` (portable branch): the cascade of
width tests, each shifting the value up and accumulating the count.  The
guards keep every product below `2^32`, so plain multiplication is the
faithful image of the `uint32_t` shifts. -/
def leadingZeroCount32 (x : Nat) : Nat :=
  if x = 0 then 32
  else
    let p1 : Nat × Nat := if x ≤ 0xFFFF then (16, x * 2 ^ 16) else (0, x)
    let p2 : Nat × Nat :=
      if p1.2 ≤ 0xFFFFFF then (p1.1 + 8, p1.2 * 2 ^ 8) else p1
    let p3 : Nat × Nat :=
      if p2.2 ≤ 0xFFFFFFF then (p2.1 + 4, p2.2 * 2 ^ 4) else p2
    let p4 : Nat × Nat :=
      if p3.2 ≤ 0x3FFFFFFF then (p3.1 + 2, p3.2 * 2 ^ 2) else p3
    if p4.2 ≤ 0x7FFFFFFF then p4.1 + 1 else p4.1

/-- Models `detail::LeadingZeroCount64` (portable branch). -/
def leadingZeroCount64 (x : Nat) : Nat :=
  if x = 0 then 64
  else
    let hi := x / 2 ^ 32
    if hi ≠ 0 then leadingZeroCount32 hi
    else 32 + leadingZeroCount32 (x % 2 ^ 32)

/-- Models `detail::DivideHighBy` in its primary branch (128-bit native
integers, `__SIZEOF_INT128__` defined, which holds on the GCC/Clang builds
this header targets): `(uint64_t)(((uint128_t)high << 64) / divisor)`. -/
def divideHighBy (high divisor : Nat) : Nat :=
  high * 2 ^ 64 / divisor % 2 ^ 64

/-- Wrapping `uint64_t` subtraction `a - b` for `a b < 2^64`. -/
def wsub64 (a b : Nat) : Nat :=
  (a + (2 ^ 64 - b)) % 2 ^ 64

/-- The correction loop of the portable (no 128-bit integers) branch of
`detail::DivideHighBy`:
`while (qh >= base32 || qh * dl > (rem << 32)) { --qh; rem += dh; if (rem >= base32) break; }`.
The fuel bounds the iteration count; each pass decrements `qh`, and the
loop is never entered with `qh = 0` (both disjuncts are then false), so
fuel `qh + 1` never runs out.  The products and shifts wrap at `2^64`
exactly as the `uint64_t` originals do. -/
def dhbLoop : Nat → Nat → Nat → Nat → Nat → Nat × Nat
  | 0, qh, rem, _, _ => (qh, rem)
  | fuel + 1, qh, rem, dh, dl =>
    if 2 ^ 32 ≤ qh ∨ (rem * 2 ^ 32) % 2 ^ 64 < (qh * dl) % 2 ^ 64 then
      let qh' := (qh + (2 ^ 64 - 1)) % 2 ^ 64
      let rem' := (rem + dh) % 2 ^ 64
      if 2 ^ 32 ≤ rem' then (qh', rem') else dhbLoop fuel qh' rem' dh dl
    else (qh, rem)

/-- Models `detail::DivideHighBy` in its portable fallback branch (the
`#else` arm: two-digit Knuth division after reducing `high %= divisor` and
normalizing by the leading-zero count of the divisor). -/
def divideHighByPortable (high divisor : Nat) : Nat :=
  let high := high % divisor
  if high = 0 then 0
  else
    let ldz := leadingZeroCount64 divisor
    let dNorm := divisor * 2 ^ ldz % 2 ^ 64
    let nNorm := high * 2 ^ ldz % 2 ^ 64
    let dh := dNorm / 2 ^ 32
    let dl := dNorm % 2 ^ 32
    let qh0 := nNorm / dh
    let rem0 := nNorm - qh0 * dh
    let qr := dhbLoop (qh0 + 1) qh0 rem0 dh dl
    let dividendPairs := wsub64 (nNorm * 2 ^ 32 % 2 ^ 64) (dNorm * qr.1 % 2 ^ 64)
    let ql := dividendPairs / dh % 2 ^ 32
    qr.1 * 2 ^ 32 % 2 ^ 64 + ql

/-- Parameter block for unsigned division (`DivisorParamsU<T>`).  The
multiplier is a `Nat` (its C type is the possibly wider `MulType_t<T>`);
the shift counts are `int` in C and are kept as `Int`.  `pow2_shift` is
only meaningful when `is_pow2` is set; the C code leaves it uninitialized
otherwise, and the model stores 0 there. -/
structure DivisorParamsU where
  multiplier : Nat
  shift1 : Int
  shift2 : Int
  is_pow2 : Bool
  pow2_shift : Int
  divisor : Nat
deriving Repr, DecidableEq

/-- Parameter block for signed division (`DivisorParamsS<T>`).  The
multiplier is the value of the stored signed `MulType_t<T>` field. -/
structure DivisorParamsS where
  multiplier : Int
  shift : Int
  divisor : Int
  is_pow2 : Bool
  pow2_shift : Int
deriving Repr, DecidableEq

/-- Two-complement reinterpretation of an integer as a signed `w`-bit
value (the value of `static_cast<T>` for a `w`-bit signed `T`). -/
def wrapS (w : Nat) (x : Int) : Int :=
  let r := x % (2 ^ w : Int)
  if r < 2 ^ (w - 1) then r else r - 2 ^ w

/-- Saturating demotion to a signed `w`-bit lane (Highway `DemoteTo` on
signed integers saturates). -/
def satDemote (w : Nat) (x : Int) : Int :=
  max (-(2 ^ (w - 1))) (min (2 ^ (w - 1) - 1) x)

/-- Models `detail::ShiftRightUniform` on an unsigned `w`-bit lane holding
`v`, with run-time count `sh` (C type `int`): counts `<= 0` return the
lane unchanged, counts `>= w` are clamped to `w - 1`, and the clamped
count is decomposed into immediate shifts through the bit tests
`sh & 32` (only for 64-bit lanes), `sh & 16` (only for lanes of at least
32 bits), `sh & 8`, `sh & 4`, `sh & 2`, `sh & 1`.  A logical right shift
by `k` is division by `2^k`. -/
def shiftRightUniformU (w : Nat) (v : Nat) (sh : Int) : Nat :=
  if sh ≤ 0 then v
  else
    let s : Nat := if (w : Int) ≤ sh then w - 1 else sh.toNat
    let v := if w = 64 ∧ s &&& 32 ≠ 0 then v / 2 ^ 32 else v
    let v := if 32 ≤ w ∧ s &&& 16 ≠ 0 then v / 2 ^ 16 else v
    let v := if s &&& 8 ≠ 0 then v / 2 ^ 8 else v
    let v := if s &&& 4 ≠ 0 then v / 2 ^ 4 else v
    let v := if s &&& 2 ≠ 0 then v / 2 ^ 2 else v
    if s &&& 1 ≠ 0 then v / 2 ^ 1 else v

/-- Models `detail::ShiftRightUniform` on a signed `w`-bit lane: the same
clamping and decomposition, with arithmetic shifts.  An arithmetic right
shift by `k` is floor division by `2^k` (`Int.ediv` by a positive divisor
is the floor). -/
def shiftRightUniformS (w : Nat) (v : Int) (sh : Int) : Int :=
  if sh ≤ 0 then v
  else
    let s : Nat := if (w : Int) ≤ sh then w - 1 else sh.toNat
    let v := if w = 64 ∧ s &&& 32 ≠ 0 then Int.ediv v (2 ^ 32) else v
    let v := if 32 ≤ w ∧ s &&& 16 ≠ 0 then Int.ediv v (2 ^ 16) else v
    let v := if s &&& 8 ≠ 0 then Int.ediv v (2 ^ 8) else v
    let v := if s &&& 4 ≠ 0 then Int.ediv v (2 ^ 4) else v
    let v := if s &&& 2 ≠ 0 then Int.ediv v (2 ^ 2) else v
    if s &&& 1 ≠ 0 then Int.ediv v (2 ^ 1) else v

/-- Models `ComputeDivisorParams` for `uint8_t` (the `HWY_IF_T_SIZE(T, 1)`,
unsigned overload).  A zero divisor aborts in C; the model is only used
under the non-zero precondition of the claims.  `two_l - divisor` is
computed in `int` (no wrap) and then cast to `uint32_t`, which the model
writes as addition of `2^32` before the difference, modulo `2^32`; the
`<< 8` then wraps in `uint32_t`, and the final store truncates the
multiplier to `uint16_t`. -/
def computeDivisorParamsU8 (divisor : Nat) : DivisorParamsU :=
  if isPow2 divisor then
    ⟨1, 0, 0, true, (countTrailingZeros32 divisor : Int), divisor⟩
  else if divisor = 1 then ⟨1, 0, 0, false, 0, divisor⟩
  else
    let l := 32 - leadingZeroCount32 (divisor - 1)
    let twoL := if l = 8 then 0 else 2 ^ l % 2 ^ 16
    let x := (twoL + (2 ^ 32 - divisor)) % 2 ^ 32
    let m := x * 2 ^ 8 % 2 ^ 32 / divisor + 1
    ⟨m % 2 ^ 16, 1, (l : Int) - 1, false, 0, divisor⟩

/-- Models `ComputeDivisorParams` for `uint16_t`.  Here `two_l - divisor`
wraps in `uint32_t`, is zero-extended to `uint64_t`, shifted by 16 (no
further wrap), divided, and the multiplier is stored in `uint32_t`. -/
def computeDivisorParamsU16 (divisor : Nat) : DivisorParamsU :=
  if isPow2 divisor then
    ⟨1, 0, 0, true, (countTrailingZeros32 divisor : Int), divisor⟩
  else if divisor = 1 then ⟨1, 0, 0, false, 0, divisor⟩
  else
    let l := 32 - leadingZeroCount32 (divisor - 1)
    let twoL := if l = 16 then 0 else 2 ^ l % 2 ^ 32
    let x := (twoL + (2 ^ 32 - divisor)) % 2 ^ 32
    let m := x * 2 ^ 16 / divisor + 1
    ⟨m % 2 ^ 32, 1, (l : Int) - 1, false, 0, divisor⟩

/-- Models `ComputeDivisorParams` for `uint32_t`: `two_l - divisor` wraps
in `uint64_t`, as does the `<< 32`; the multiplier is stored in `T`
(`uint32_t`). -/
def computeDivisorParamsU32 (divisor : Nat) : DivisorParamsU :=
  if isPow2 divisor then
    ⟨1, 0, 0, true, (countTrailingZeros32 divisor : Int), divisor⟩
  else if divisor = 1 then ⟨1, 0, 0, false, 0, divisor⟩
  else
    let l := 32 - leadingZeroCount32 (divisor - 1)
    let twoL := if l = 32 then 0 else 2 ^ l
    let x := (twoL + (2 ^ 64 - divisor)) % 2 ^ 64
    let m := x * 2 ^ 32 % 2 ^ 64 / divisor + 1
    ⟨m % 2 ^ 32, 1, (l : Int) - 1, false, 0, divisor⟩

/-- Models `ComputeDivisorParams` for `uint64_t`, which derives the
multiplier through `detail::DivideHighBy`. -/
def computeDivisorParamsU64 (divisor : Nat) : DivisorParamsU :=
  if isPow2 divisor then
    ⟨1, 0, 0, true, (countTrailingZeros64 divisor : Int), divisor⟩
  else if divisor = 1 then ⟨1, 0, 0, false, 0, divisor⟩
  else
    let l := 64 - leadingZeroCount64 (divisor - 1)
    let twoLMinusD :=
      if l < 64 then (2 ^ l + (2 ^ 64 - divisor)) % 2 ^ 64
      else (2 ^ 64 - divisor) % 2 ^ 64
    let m := divideHighBy twoLMinusD divisor + 1
    ⟨m % 2 ^ 64, 1, (l : Int) - 1, false, 0, divisor⟩

/-- Models `ComputeDivisorParams` for `int8_t`.  `abs_d` is the `uint8_t`
absolute value (for the minimum divisor the negation is done after
integer promotion, so the value is `2^7`).  The multiplier is the value
of the stored `int16_t`: `static_cast<int16_t>(m)` is `wrapS 16` of
`m % 2^16`.  The `0x80` arm is kept although the power-of-two test above
it already captures that divisor. -/
def computeDivisorParamsS8 (divisor : Int) : DivisorParamsS :=
  let absd : Nat := divisor.natAbs
  if isPow2 absd then
    ⟨1, 0, divisor, true, (countTrailingZeros32 absd : Int)⟩
  else if absd = 1 then ⟨1, 0, divisor, false, 0⟩
  else if divisor % (2 ^ 8 : Int) = 2 ^ 7 then
    ⟨wrapS 16 0x81, 6, divisor, false, 0⟩
  else
    let sh := 31 - leadingZeroCount32 (absd - 1)
    let m : Nat := 2 ^ 8 * 2 ^ sh % 2 ^ 32 / absd + 1
    ⟨wrapS 16 (m % 2 ^ 16), (sh : Int), divisor, false, 0⟩

/-- Models `ComputeDivisorParams` for `int16_t`; the multiplier is stored
in `int32_t`. -/
def computeDivisorParamsS16 (divisor : Int) : DivisorParamsS :=
  let absd : Nat := divisor.natAbs
  if isPow2 absd then
    ⟨1, 0, divisor, true, (countTrailingZeros32 absd : Int)⟩
  else if absd = 1 then ⟨1, 0, divisor, false, 0⟩
  else if divisor % (2 ^ 16 : Int) = 2 ^ 15 then
    ⟨wrapS 32 0x8001, 14, divisor, false, 0⟩
  else
    let sh := 31 - leadingZeroCount32 (absd - 1)
    let m : Nat := 2 ^ 16 * 2 ^ sh / absd + 1
    ⟨wrapS 32 (m % 2 ^ 32), (sh : Int), divisor, false, 0⟩

/-- Models `ComputeDivisorParams` for `int32_t`; the multiplier is stored
in `T = int32_t`, so magnitudes at and above `2^31` wrap to negative
values (this wrap is what makes the 32-bit signed multiplier path work,
unlike the 8- and 16-bit overloads whose wider stores keep it positive). -/
def computeDivisorParamsS32 (divisor : Int) : DivisorParamsS :=
  let absd : Nat := divisor.natAbs
  if isPow2 absd then
    ⟨1, 0, divisor, true, (countTrailingZeros32 absd : Int)⟩
  else if absd = 1 then ⟨1, 0, divisor, false, 0⟩
  else if divisor % (2 ^ 32 : Int) = 2 ^ 31 then
    ⟨wrapS 32 0x80000001, 30, divisor, false, 0⟩
  else
    let sh := 31 - leadingZeroCount32 (absd - 1)
    let m : Nat := 2 ^ 32 * 2 ^ sh % 2 ^ 64 / absd + 1
    ⟨wrapS 32 (m % 2 ^ 32), (sh : Int), divisor, false, 0⟩

/-- Models `ComputeDivisorParams` for `int64_t`, deriving the multiplier
through `detail::DivideHighBy`. -/
def computeDivisorParamsS64 (divisor : Int) : DivisorParamsS :=
  let absd : Nat := divisor.natAbs
  if isPow2 absd then
    ⟨1, 0, divisor, true, (countTrailingZeros64 absd : Int)⟩
  else if absd = 1 then ⟨1, 0, divisor, false, 0⟩
  else if divisor % (2 ^ 64 : Int) = 2 ^ 63 then
    ⟨wrapS 64 0x8000000000000001, 62, divisor, false, 0⟩
  else
    let sh := 63 - leadingZeroCount64 (absd - 1)
    let m := divideHighBy (2 ^ sh % 2 ^ 64) absd + 1
    ⟨wrapS 64 (m % 2 ^ 64), (sh : Int), divisor, false, 0⟩

/-- Models the unsigned overload of `IntDiv` on one `w`-bit lane
(`w` in `{8, 16, 32, 64}`).  For 8- and 16-bit lanes the product with the
wider multiplier is formed in `2w`-bit lanes and wraps there; for 32- and
64-bit lanes `MulHigh(dividend, multiplier)` is the upper half of the
exact `2w`-bit product.  Because the stored multiplier is always below
`2^(2w)` (`MulType_t<T>` is `2w` bits wide at widths 8 and 16 and `w` bits
wide at widths 32 and 64), both cases are the single expression
`dividend * multiplier % 2^(2w) / 2^w`.  The `Sub`/`Add` steps wrap in the
`w`-bit lane. -/
def intDivU (w : Nat) (dividend : Nat) (p : DivisorParamsU) : Nat :=
  if p.is_pow2 then shiftRightUniformU w dividend p.pow2_shift
  else if p.shift1 = 0 ∧ p.shift2 = 0 ∧ p.multiplier = 1 then dividend
  else
    let t1 := dividend * p.multiplier % 2 ^ (2 * w) / 2 ^ w
    let diff := (dividend + (2 ^ w - t1)) % 2 ^ w
    let shifted := shiftRightUniformU w diff p.shift1
    let sum := (t1 + shifted) % 2 ^ w
    shiftRightUniformU w sum p.shift2

/-- Models the signed overload of `IntDiv` on one `w`-bit lane.  The
power-of-two arm uses the bias trick; the mask `(1 << pow2_shift) - 1`
is computed in the unsigned type and cast back (`pow2_shift < w` always
holds for derived parameter blocks, making the `shift == bitwidth` guard
of the C code dead).  `And(sign, mask)` with `sign` either all-ones or
all-zeros selects the mask or zero.  In the general arm, 8- and 16-bit
lanes promote, multiply in the `2w`-bit lane (wrapping there), shift
arithmetically by `w` and demote with saturation, while 32- and 64-bit
lanes use the signed `MulHigh`, the upper half of the exact product.
`Xor` with all-ones is the two-complement `-x - 1`. -/
def intDivS (w : Nat) (dividend : Int) (p : DivisorParamsS) : Int :=
  let negDivisor := p.divisor < 0
  if p.is_pow2 then
    let maskVal : Int :=
      if p.pow2_shift < (w : Int) then wrapS w (2 ^ p.pow2_shift.toNat - 1)
      else -1
    let sign : Int := Int.ediv dividend (2 ^ (w - 1))
    let bias : Int := if sign = -1 then maskVal else 0
    let q := shiftRightUniformS w (wrapS w (dividend + bias)) p.pow2_shift
    if negDivisor then wrapS w (-q) else q
  else if p.shift = 0 ∧ p.multiplier = 1 then
    if negDivisor then wrapS w (-dividend) else dividend
  else
    let q0 :=
      if w ≤ 16 then
        let prod := wrapS (2 * w) (dividend * p.multiplier)
        let high := satDemote w (Int.ediv prod (2 ^ w))
        wrapS w (dividend + high)
      else
        let mulh := Int.ediv (dividend * p.multiplier) (2 ^ w)
        wrapS w (dividend + mulh)
    let q1 := shiftRightUniformS w q0 p.shift
    let signDividend := Int.ediv dividend (2 ^ (w - 1))
    let q2 := wrapS w (q1 - signDividend)
    if negDivisor then wrapS w ((-q2 - 1) - (-1)) else q2

/-- Models the signed overload of `IntDivFloor`: the truncating quotient,
then the correction `q - ((a != q * d) & (sign(a) != sign(d)))`, where
`q * d` is the wrapping low-half lane multiply and the final `Sub` wraps. -/
def intDivFloorS (w : Nat) (dividend : Int) (p : DivisorParamsS) : Int :=
  let q := intDivS w dividend p
  let prod := wrapS w (q * p.divisor)
  let adjust : Int :=
    if dividend ≠ prod ∧ ((dividend < 0) ≠ (p.divisor < 0)) then 1 else 0
  wrapS w (q - adjust)

/-- Models the unsigned overload of `IntDivFloor`, which forwards to
`IntDiv`. -/
def intDivFloorU (w : Nat) (dividend : Nat) (p : DivisorParamsU) : Nat :=
  intDivU w dividend p

/-- Models the unsigned overload of `DivideByScalar` for `uint8_t`: a
power-of-two shortcut (shift by the trailing-zero count) ahead of the
parameter computation, then `IntDiv`. -/
def divideByScalarU8 (dividend divisor : Nat) : Nat :=
  if isPow2 divisor then
    shiftRightUniformU 8 dividend (countTrailingZeros32 divisor : Int)
  else intDivU 8 dividend (computeDivisorParamsU8 divisor)

/-- Models `DivideByScalar` for `uint16_t`. -/
def divideByScalarU16 (dividend divisor : Nat) : Nat :=
  if isPow2 divisor then
    shiftRightUniformU 16 dividend (countTrailingZeros32 divisor : Int)
  else intDivU 16 dividend (computeDivisorParamsU16 divisor)

/-- Models `DivideByScalar` for `uint32_t`. -/
def divideByScalarU32 (dividend divisor : Nat) : Nat :=
  if isPow2 divisor then
    shiftRightUniformU 32 dividend (countTrailingZeros32 divisor : Int)
  else intDivU 32 dividend (computeDivisorParamsU32 divisor)

/-- Models `DivideByScalar` for `uint64_t` (the trailing-zero count uses
the 64-bit helper). -/
def divideByScalarU64 (dividend divisor : Nat) : Nat :=
  if isPow2 divisor then
    shiftRightUniformU 64 dividend (countTrailingZeros64 divisor : Int)
  else intDivU 64 dividend (computeDivisorParamsU64 divisor)

/-- Models the signed overload of `DivideByScalar` for `int8_t`:
parameter computation followed by `IntDiv`, with no shortcut. -/
def divideByScalarS8 (dividend divisor : Int) : Int :=
  intDivS 8 dividend (computeDivisorParamsS8 divisor)

/-- Models `DivideByScalar` for `int16_t`. -/
def divideByScalarS16 (dividend divisor : Int) : Int :=
  intDivS 16 dividend (computeDivisorParamsS16 divisor)

/-- Models `DivideByScalar` for `int32_t`. -/
def divideByScalarS32 (dividend divisor : Int) : Int :=
  intDivS 32 dividend (computeDivisorParamsS32 divisor)

/-- Models `DivideByScalar` for `int64_t`. -/
def divideByScalarS64 (dividend divisor : Int) : Int :=
  intDivS 64 dividend (computeDivisorParamsS64 divisor)

/-- Models the signed overload of `FloorDivideByScalar` for `int8_t`:
parameter computation followed by `IntDivFloor`. -/
def floorDivideByScalarS8 (dividend divisor : Int) : Int :=
  intDivFloorS 8 dividend (computeDivisorParamsS8 divisor)

/-- Models `FloorDivideByScalar` for `int16_t`. -/
def floorDivideByScalarS16 (dividend divisor : Int) : Int :=
  intDivFloorS 16 dividend (computeDivisorParamsS16 divisor)

/-- Models `FloorDivideByScalar` for `int32_t`. -/
def floorDivideByScalarS32 (dividend divisor : Int) : Int :=
  intDivFloorS 32 dividend (computeDivisorParamsS32 divisor)

/-- Models `FloorDivideByScalar` for `int64_t`. -/
def floorDivideByScalarS64 (dividend divisor : Int) : Int :=
  intDivFloorS 64 dividend (computeDivisorParamsS64 divisor)

/-- Models the unsigned overload of `FloorDivideByScalar`, which forwards
to `DivideByScalar` (shown for `uint8_t`). -/
def floorDivideByScalarU8 (dividend divisor : Nat) : Nat :=
  divideByScalarU8 dividend divisor

/-- Models `FloorDivideByScalar` for `uint16_t`. -/
def floorDivideByScalarU16 (dividend divisor : Nat) : Nat :=
  divideByScalarU16 dividend divisor

/-- Models `FloorDivideByScalar` for `uint32_t`. -/
def floorDivideByScalarU32 (dividend divisor : Nat) : Nat :=
  divideByScalarU32 dividend divisor

/-- Models `FloorDivideByScalar` for `uint64_t`. -/
def floorDivideByScalarU64 (dividend divisor : Nat) : Nat :=
  divideByScalarU64 dividend divisor

/-! Helper lemmas. -/

/-- A test of bit `i` through masking is a test on the binary digit. -/
lemma and_two_pow_ne_zero_iff (s i : Nat) :
    (s &&& 2 ^ i ≠ 0) ↔ s / 2 ^ i % 2 = 1 := by
  rw [Nat.and_two_pow, Nat.testBit_to_div_mod]
  by_cases h : s / 2 ^ i % 2 = 1 <;>
    simp [h, (Nat.two_pow_pos i).ne']

/-- Logical right shifts compose additively. -/
lemma div_div_pow (v a b : Nat) : v / 2 ^ a / 2 ^ b = v / 2 ^ (a + b) := by
  rw [Nat.div_div_eq_div_mul, pow_add]

/-- Floor divisions by positive divisors compose multiplicatively. -/
lemma int_ediv_ediv (x m n : Int) (hm : 0 < m) (hn : 0 < n) :
    Int.ediv (Int.ediv x m) n = Int.ediv x (m * n) := by
  show x / m / n = x / (m * n)
  have hb : 0 < m * n := mul_pos hm hn
  have hr1a := Int.emod_nonneg x (ne_of_gt hm)
  have hr1b := Int.emod_lt_of_pos x hm
  have hr2a := Int.emod_nonneg (x / m) (ne_of_gt hn)
  have hr2b := Int.emod_lt_of_pos (x / m) hn
  have key : (m * (x / m % n) + x % m) + m * n * (x / m / n) = x := by
    calc (m * (x / m % n) + x % m) + m * n * (x / m / n)
        = m * (n * (x / m / n) + x / m % n) + x % m := by ring
      _ = m * (x / m) + x % m := by rw [Int.ediv_add_emod]
      _ = x := Int.ediv_add_emod x m
  have hmul : m * (x / m % n) ≤ m * (n - 1) :=
    mul_le_mul_of_nonneg_left (by omega) hm.le
  exact (((Int.ediv_emod_unique hb).mpr
    ⟨key, by positivity, by nlinarith⟩).1).symm

/-- Arithmetic right shifts compose additively. -/
lemma ediv_ediv_pow (x : Int) (a b : Nat) :
    Int.ediv (Int.ediv x (2 ^ a)) (2 ^ b) = Int.ediv x (2 ^ (a + b)) := by
  rw [int_ediv_ediv x _ _ (by positivity) (by positivity), pow_add]

/-- A non-positive count leaves an unsigned lane unchanged. -/
lemma srU_nonpos (w v : Nat) (sh : Int) (h : sh ≤ 0) :
    shiftRightUniformU w v sh = v := by
  simp [shiftRightUniformU, h]

/-- A non-positive count leaves a signed lane unchanged. -/
lemma srS_nonpos (w : Nat) (v : Int) (sh : Int) (h : sh ≤ 0) :
    shiftRightUniformS w v sh = v := by
  simp [shiftRightUniformS, h]


lemma srU8_pos (v : Nat) (sh : Int) (hpos : 0 < sh) (hlt : sh < 8) :
    shiftRightUniformU 8 v sh = v / 2 ^ sh.toNat := by
  have hn : ¬ sh ≤ 0 := by omega
  have hcl : ¬ (((8 : Nat) : Int) ≤ sh) := by push_cast; omega
  unfold shiftRightUniformU
  rw [if_neg hn, if_neg hcl]
  generalize hsg : sh.toNat = s
  have hs1 : 1 ≤ s := by omega
  have hsw : s < 8 := by omega
  interval_cases s <;> simp +decide [Nat.div_div_eq_div_mul]


lemma srS8_pos (x : Int) (sh : Int) (hpos : 0 < sh) (hlt : sh < 8) :
    shiftRightUniformS 8 x sh = Int.ediv x (2 ^ sh.toNat) := by
  have hn : ¬ sh ≤ 0 := by omega
  have hcl : ¬ (((8 : Nat) : Int) ≤ sh) := by push_cast; omega
  unfold shiftRightUniformS
  rw [if_neg hn, if_neg hcl]
  generalize hsg : sh.toNat = s
  have hs1 : 1 ≤ s := by omega
  have hsw : s < 8 := by omega
  interval_cases s <;> simp +decide [int_ediv_ediv]


lemma srU8_ge (v : Nat) (sh : Int) (hge : (8 : Int) ≤ sh) :
    shiftRightUniformU 8 v sh = v / 2 ^ (8 - 1) := by
  have hn : ¬ sh ≤ 0 := by omega
  have hcl : ((8 : Nat) : Int) ≤ sh := by push_cast; omega
  unfold shiftRightUniformU
  rw [if_neg hn, if_pos hcl]
  simp +decide [Nat.div_div_eq_div_mul]


lemma srS8_ge (x : Int) (sh : Int) (hge : (8 : Int) ≤ sh) :
    shiftRightUniformS 8 x sh = Int.ediv x (2 ^ (8 - 1)) := by
  have hn : ¬ sh ≤ 0 := by omega
  have hcl : ((8 : Nat) : Int) ≤ sh := by push_cast; omega
  unfold shiftRightUniformS
  rw [if_neg hn, if_pos hcl]
  simp +decide [int_ediv_ediv]


lemma srU16_pos (v : Nat) (sh : Int) (hpos : 0 < sh) (hlt : sh < 16) :
    shiftRightUniformU 16 v sh = v / 2 ^ sh.toNat := by
  have hn : ¬ sh ≤ 0 := by omega
  have hcl : ¬ (((16 : Nat) : Int) ≤ sh) := by push_cast; omega
  unfold shiftRightUniformU
  rw [if_neg hn, if_neg hcl]
  generalize hsg : sh.toNat = s
  have hs1 : 1 ≤ s := by omega
  have hsw : s < 16 := by omega
  interval_cases s <;> simp +decide [Nat.div_div_eq_div_mul]


lemma srS16_pos (x : Int) (sh : Int) (hpos : 0 < sh) (hlt : sh < 16) :
    shiftRightUniformS 16 x sh = Int.ediv x (2 ^ sh.toNat) := by
  have hn : ¬ sh ≤ 0 := by omega
  have hcl : ¬ (((16 : Nat) : Int) ≤ sh) := by push_cast; omega
  unfold shiftRightUniformS
  rw [if_neg hn, if_neg hcl]
  generalize hsg : sh.toNat = s
  have hs1 : 1 ≤ s := by omega
  have hsw : s < 16 := by omega
  interval_cases s <;> simp +decide [int_ediv_ediv]


lemma srU16_ge (v : Nat) (sh : Int) (hge : (16 : Int) ≤ sh) :
    shiftRightUniformU 16 v sh = v / 2 ^ (16 - 1) := by
  have hn : ¬ sh ≤ 0 := by omega
  have hcl : ((16 : Nat) : Int) ≤ sh := by push_cast; omega
  unfold shiftRightUniformU
  rw [if_neg hn, if_pos hcl]
  simp +decide [Nat.div_div_eq_div_mul]


lemma srS16_ge (x : Int) (sh : Int) (hge : (16 : Int) ≤ sh) :
    shiftRightUniformS 16 x sh = Int.ediv x (2 ^ (16 - 1)) := by
  have hn : ¬ sh ≤ 0 := by omega
  have hcl : ((16 : Nat) : Int) ≤ sh := by push_cast; omega
  unfold shiftRightUniformS
  rw [if_neg hn, if_pos hcl]
  simp +decide [int_ediv_ediv]


lemma srU32_pos (v : Nat) (sh : Int) (hpos : 0 < sh) (hlt : sh < 32) :
    shiftRightUniformU 32 v sh = v / 2 ^ sh.toNat := by
  have hn : ¬ sh ≤ 0 := by omega
  have hcl : ¬ (((32 : Nat) : Int) ≤ sh) := by push_cast; omega
  unfold shiftRightUniformU
  rw [if_neg hn, if_neg hcl]
  generalize hsg : sh.toNat = s
  have hs1 : 1 ≤ s := by omega
  have hsw : s < 32 := by omega
  interval_cases s <;> simp +decide [Nat.div_div_eq_div_mul]


lemma srS32_pos (x : Int) (sh : Int) (hpos : 0 < sh) (hlt : sh < 32) :
    shiftRightUniformS 32 x sh = Int.ediv x (2 ^ sh.toNat) := by
  have hn : ¬ sh ≤ 0 := by omega
  have hcl : ¬ (((32 : Nat) : Int) ≤ sh) := by push_cast; omega
  unfold shiftRightUniformS
  rw [if_neg hn, if_neg hcl]
  generalize hsg : sh.toNat = s
  have hs1 : 1 ≤ s := by omega
  have hsw : s < 32 := by omega
  interval_cases s <;> simp +decide [int_ediv_ediv]


lemma srU32_ge (v : Nat) (sh : Int) (hge : (32 : Int) ≤ sh) :
    shiftRightUniformU 32 v sh = v / 2 ^ (32 - 1) := by
  have hn : ¬ sh ≤ 0 := by omega
  have hcl : ((32 : Nat) : Int) ≤ sh := by push_cast; omega
  unfold shiftRightUniformU
  rw [if_neg hn, if_pos hcl]
  simp +decide [Nat.div_div_eq_div_mul]


lemma srS32_ge (x : Int) (sh : Int) (hge : (32 : Int) ≤ sh) :
    shiftRightUniformS 32 x sh = Int.ediv x (2 ^ (32 - 1)) := by
  have hn : ¬ sh ≤ 0 := by omega
  have hcl : ((32 : Nat) : Int) ≤ sh := by push_cast; omega
  unfold shiftRightUniformS
  rw [if_neg hn, if_pos hcl]
  simp +decide [int_ediv_ediv]


lemma srU64_pos (v : Nat) (sh : Int) (hpos : 0 < sh) (hlt : sh < 64) :
    shiftRightUniformU 64 v sh = v / 2 ^ sh.toNat := by
  have hn : ¬ sh ≤ 0 := by omega
  have hcl : ¬ (((64 : Nat) : Int) ≤ sh) := by push_cast; omega
  unfold shiftRightUniformU
  rw [if_neg hn, if_neg hcl]
  generalize hsg : sh.toNat = s
  have hs1 : 1 ≤ s := by omega
  have hsw : s < 64 := by omega
  interval_cases s <;> simp +decide [Nat.div_div_eq_div_mul]


lemma srS64_pos (x : Int) (sh : Int) (hpos : 0 < sh) (hlt : sh < 64) :
    shiftRightUniformS 64 x sh = Int.ediv x (2 ^ sh.toNat) := by
  have hn : ¬ sh ≤ 0 := by omega
  have hcl : ¬ (((64 : Nat) : Int) ≤ sh) := by push_cast; omega
  unfold shiftRightUniformS
  rw [if_neg hn, if_neg hcl]
  generalize hsg : sh.toNat = s
  have hs1 : 1 ≤ s := by omega
  have hsw : s < 64 := by omega
  interval_cases s <;> simp +decide [int_ediv_ediv]


lemma srU64_ge (v : Nat) (sh : Int) (hge : (64 : Int) ≤ sh) :
    shiftRightUniformU 64 v sh = v / 2 ^ (64 - 1) := by
  have hn : ¬ sh ≤ 0 := by omega
  have hcl : ((64 : Nat) : Int) ≤ sh := by push_cast; omega
  unfold shiftRightUniformU
  rw [if_neg hn, if_pos hcl]
  simp +decide [Nat.div_div_eq_div_mul]


lemma srS64_ge (x : Int) (sh : Int) (hge : (64 : Int) ≤ sh) :
    shiftRightUniformS 64 x sh = Int.ediv x (2 ^ (64 - 1)) := by
  have hn : ¬ sh ≤ 0 := by omega
  have hcl : ((64 : Nat) : Int) ≤ sh := by push_cast; omega
  unfold shiftRightUniformS
  rw [if_neg hn, if_pos hcl]
  simp +decide [int_ediv_ediv]



/-- A signed value already inside the `w`-bit range is fixed by `wrapS`. -/
lemma wrapS_eq_self {w : Nat} (hw : 0 < w) {x : Int} (h1 : -(2 ^ (w - 1)) ≤ x)
    (h2 : x < 2 ^ (w - 1)) : wrapS w x = x := by
  unfold wrapS
  have hpow : (2 : Int) ^ w = 2 * 2 ^ (w - 1) := by
    conv_lhs => rw [show w = (w - 1) + 1 by omega]
    rw [pow_succ]
    ring
  have hp : (0 : Int) < 2 ^ (w - 1) := by positivity
  by_cases hx : 0 ≤ x
  · have hmod : x % ((2 : Int) ^ w) = x := Int.emod_eq_of_lt hx (by omega)
    simp only [hmod]
    rw [if_pos h2]
  · push_neg at hx
    have hmod : x % ((2 : Int) ^ w) = x + 2 ^ w := by
      have hshift : (x + 2 ^ w) % ((2 : Int) ^ w) = x % ((2 : Int) ^ w) := by
        simp
      rw [← hshift, Int.emod_eq_of_lt (by omega) (by omega)]
    simp only [hmod]
    rw [if_neg (by omega)]
    omega

/-- With the identity parameter block (`multiplier = 1`, all shifts zero,
power-of-two flag with shift 0, divisor 1), unsigned `IntDiv` is the
identity. -/
lemma intDivU_unit (w : Nat) (a : Nat) :
    intDivU w a ⟨1, 0, 0, true, 0, 1⟩ = a := by
  simp [intDivU, srU_nonpos]

/-- With the divisor-one parameter block, signed `IntDiv` is the identity
on in-range lanes. -/
lemma intDivS_unit_pos (w : Nat) (hw : 0 < w) (a : Int)
    (h1 : -(2 ^ (w - 1)) ≤ a) (h2 : a < 2 ^ (w - 1)) :
    intDivS w a ⟨1, 0, 1, true, 0⟩ = a := by
  have hp : (0 : Int) < 2 ^ (w - 1) := by positivity
  have hw' : (0 : Int) < (w : Int) := by exact_mod_cast hw
  have h0 : wrapS w ((2 : Int) ^ (0 : Int).toNat - 1) = 0 := by
    norm_num
    exact wrapS_eq_self hw (by omega) (by omega)
  unfold intDivS
  simp only [if_pos hw', h0, ite_self, add_zero, if_true,
    show ¬ ((1 : Int) < 0) by norm_num, if_false]
  rw [srS_nonpos w (wrapS w a) 0 le_rfl, wrapS_eq_self hw h1 h2]

/-- With the divisor-minus-one parameter block, signed `IntDiv` negates
in-range lanes (the minimum itself excluded). -/
lemma intDivS_unit_neg (w : Nat) (hw : 0 < w) (a : Int)
    (h1 : -(2 ^ (w - 1)) < a) (h2 : a < 2 ^ (w - 1)) :
    intDivS w a ⟨1, 0, -1, true, 0⟩ = -a := by
  have hp : (0 : Int) < 2 ^ (w - 1) := by positivity
  have hw' : (0 : Int) < (w : Int) := by exact_mod_cast hw
  have h0 : wrapS w ((2 : Int) ^ (0 : Int).toNat - 1) = 0 := by
    norm_num
    exact wrapS_eq_self hw (by omega) (by omega)
  unfold intDivS
  simp only [if_pos hw', h0, ite_self, add_zero, if_true,
    show ((-1 : Int) < 0) by norm_num]
  rw [srS_nonpos w (wrapS w a) 0 le_rfl, wrapS_eq_self hw (le_of_lt h1) h2,
    wrapS_eq_self hw (by omega) (by omega)]



/-- C6: for every lane width in `{8, 16, 32, 64}`, `ShiftRightUniform`
leaves the lane unchanged for counts at most 0, behaves as a shift by
`W - 1` for counts at least `W`, and otherwise shifts by the count
itself; unsigned lanes shift logically (division by `2^count`), signed
lanes arithmetically (floor division by `2^count`). -/
theorem shiftRightUniform_spec (v : Nat) (x : Int) (sh : Int) :
    (sh ≤ 0 →
      shiftRightUniformU 8 v sh = v ∧ shiftRightUniformU 16 v sh = v ∧
      shiftRightUniformU 32 v sh = v ∧ shiftRightUniformU 64 v sh = v ∧
      shiftRightUniformS 8 x sh = x ∧ shiftRightUniformS 16 x sh = x ∧
      shiftRightUniformS 32 x sh = x ∧ shiftRightUniformS 64 x sh = x) ∧
    ((8 : Int) ≤ sh →
      shiftRightUniformU 8 v sh = v / 2 ^ 7 ∧
      shiftRightUniformS 8 x sh = Int.ediv x (2 ^ 7)) ∧
    ((16 : Int) ≤ sh →
      shiftRightUniformU 16 v sh = v / 2 ^ 15 ∧
      shiftRightUniformS 16 x sh = Int.ediv x (2 ^ 15)) ∧
    ((32 : Int) ≤ sh →
      shiftRightUniformU 32 v sh = v / 2 ^ 31 ∧
      shiftRightUniformS 32 x sh = Int.ediv x (2 ^ 31)) ∧
    ((64 : Int) ≤ sh →
      shiftRightUniformU 64 v sh = v / 2 ^ 63 ∧
      shiftRightUniformS 64 x sh = Int.ediv x (2 ^ 63)) ∧
    (0 < sh → sh < 8 →
      shiftRightUniformU 8 v sh = v / 2 ^ sh.toNat ∧
      shiftRightUniformS 8 x sh = Int.ediv x (2 ^ sh.toNat)) ∧
    (0 < sh → sh < 16 →
      shiftRightUniformU 16 v sh = v / 2 ^ sh.toNat ∧
      shiftRightUniformS 16 x sh = Int.ediv x (2 ^ sh.toNat)) ∧
    (0 < sh → sh < 32 →
      shiftRightUniformU 32 v sh = v / 2 ^ sh.toNat ∧
      shiftRightUniformS 32 x sh = Int.ediv x (2 ^ sh.toNat)) ∧
    (0 < sh → sh < 64 →
      shiftRightUniformU 64 v sh = v / 2 ^ sh.toNat ∧
      shiftRightUniformS 64 x sh = Int.ediv x (2 ^ sh.toNat)) := by
  refine ⟨fun h => ⟨srU_nonpos _ _ _ h, srU_nonpos _ _ _ h, srU_nonpos _ _ _ h,
      srU_nonpos _ _ _ h, srS_nonpos _ _ _ h, srS_nonpos _ _ _ h,
      srS_nonpos _ _ _ h, srS_nonpos _ _ _ h⟩,
    fun h => ⟨by simpa using srU8_ge v sh h, by simpa using srS8_ge x sh h⟩,
    fun h => ⟨by simpa using srU16_ge v sh h, by simpa using srS16_ge x sh h⟩,
    fun h => ⟨by simpa using srU32_ge v sh h, by simpa using srS32_ge x sh h⟩,
    fun h => ⟨by simpa using srU64_ge v sh h, by simpa using srS64_ge x sh h⟩,
    fun h1 h2 => ⟨srU8_pos v sh h1 h2, srS8_pos x sh h1 h2⟩,
    fun h1 h2 => ⟨srU16_pos v sh h1 h2, srS16_pos x sh h1 h2⟩,
    fun h1 h2 => ⟨srU32_pos v sh h1 h2, srS32_pos x sh h1 h2⟩,
    fun h1 h2 => ⟨srU64_pos v sh h1 h2, srS64_pos x sh h1 h2⟩⟩

/-- Witness for `shiftRightUniform_spec` at concrete inputs: count 3 on an
8-bit lane, a clamped count 100 on a 16-bit lane, and a negative count. -/
theorem shiftRightUniform_spec_witness :
    shiftRightUniformU 8 200 3 = 25 ∧ shiftRightUniformS 8 (-100) 3 = -13 ∧
    shiftRightUniformU 16 12345 100 = 0 ∧
    shiftRightUniformS 16 (-1) (-5) = -1 := by
  refine ⟨?_, ?_, ?_, ?_⟩
  · exact ((shiftRightUniform_spec 200 (-100) 3).2.2.2.2.2.1 (by decide)
      (by decide)).1.trans (by decide)
  · exact ((shiftRightUniform_spec 200 (-100) 3).2.2.2.2.2.1 (by decide)
      (by decide)).2.trans (by decide)
  · exact ((shiftRightUniform_spec 12345 0 100).2.2.1 (by decide)).1.trans
      (by decide)
  · exact ((shiftRightUniform_spec 0 (-1) (-5)).1 (by decide)).2.2.2.2.1



/-- C7: for every lane width, dividing by 1 through
`ComputeDivisorParams` and `IntDiv` is the identity on every dividend,
and for signed lanes dividing by -1 negates every dividend other than
the minimum value. -/
theorem intDiv_unit_divisor_spec :
    (∀ a : Nat, a < 2 ^ 8 → intDivU 8 a (computeDivisorParamsU8 1) = a) ∧
    (∀ a : Nat, a < 2 ^ 16 → intDivU 16 a (computeDivisorParamsU16 1) = a) ∧
    (∀ a : Nat, a < 2 ^ 32 → intDivU 32 a (computeDivisorParamsU32 1) = a) ∧
    (∀ a : Nat, a < 2 ^ 64 → intDivU 64 a (computeDivisorParamsU64 1) = a) ∧
    (∀ a : Int, -(2 ^ 7) ≤ a → a < 2 ^ 7 →
      intDivS 8 a (computeDivisorParamsS8 1) = a) ∧
    (∀ a : Int, -(2 ^ 15) ≤ a → a < 2 ^ 15 →
      intDivS 16 a (computeDivisorParamsS16 1) = a) ∧
    (∀ a : Int, -(2 ^ 31) ≤ a → a < 2 ^ 31 →
      intDivS 32 a (computeDivisorParamsS32 1) = a) ∧
    (∀ a : Int, -(2 ^ 63) ≤ a → a < 2 ^ 63 →
      intDivS 64 a (computeDivisorParamsS64 1) = a) ∧
    (∀ a : Int, -(2 ^ 7) < a → a < 2 ^ 7 →
      intDivS 8 a (computeDivisorParamsS8 (-1)) = -a) ∧
    (∀ a : Int, -(2 ^ 15) < a → a < 2 ^ 15 →
      intDivS 16 a (computeDivisorParamsS16 (-1)) = -a) ∧
    (∀ a : Int, -(2 ^ 31) < a → a < 2 ^ 31 →
      intDivS 32 a (computeDivisorParamsS32 (-1)) = -a) ∧
    (∀ a : Int, -(2 ^ 63) < a → a < 2 ^ 63 →
      intDivS 64 a (computeDivisorParamsS64 (-1)) = -a) := by
  refine ⟨?_, ?_, ?_, ?_, ?_, ?_, ?_, ?_, ?_, ?_, ?_, ?_⟩
  · intro a _
    rw [show computeDivisorParamsU8 1 = ⟨1, 0, 0, true, 0, 1⟩ from by decide]
    exact intDivU_unit 8 a
  · intro a _
    rw [show computeDivisorParamsU16 1 = ⟨1, 0, 0, true, 0, 1⟩ from by decide]
    exact intDivU_unit 16 a
  · intro a _
    rw [show computeDivisorParamsU32 1 = ⟨1, 0, 0, true, 0, 1⟩ from by decide]
    exact intDivU_unit 32 a
  · intro a _
    rw [show computeDivisorParamsU64 1 = ⟨1, 0, 0, true, 0, 1⟩ from by decide]
    exact intDivU_unit 64 a
  · intro a h1 h2
    rw [show computeDivisorParamsS8 1 = ⟨1, 0, 1, true, 0⟩ from by decide]
    exact intDivS_unit_pos 8 (by norm_num) a h1 h2
  · intro a h1 h2
    rw [show computeDivisorParamsS16 1 = ⟨1, 0, 1, true, 0⟩ from by decide]
    exact intDivS_unit_pos 16 (by norm_num) a h1 h2
  · intro a h1 h2
    rw [show computeDivisorParamsS32 1 = ⟨1, 0, 1, true, 0⟩ from by decide]
    exact intDivS_unit_pos 32 (by norm_num) a h1 h2
  · intro a h1 h2
    rw [show computeDivisorParamsS64 1 = ⟨1, 0, 1, true, 0⟩ from by decide]
    exact intDivS_unit_pos 64 (by norm_num) a h1 h2
  · intro a h1 h2
    rw [show computeDivisorParamsS8 (-1) = ⟨1, 0, -1, true, 0⟩ from by decide]
    exact intDivS_unit_neg 8 (by norm_num) a h1 h2
  · intro a h1 h2
    rw [show computeDivisorParamsS16 (-1) = ⟨1, 0, -1, true, 0⟩ from by decide]
    exact intDivS_unit_neg 16 (by norm_num) a h1 h2
  · intro a h1 h2
    rw [show computeDivisorParamsS32 (-1) = ⟨1, 0, -1, true, 0⟩ from by decide]
    exact intDivS_unit_neg 32 (by norm_num) a h1 h2
  · intro a h1 h2
    rw [show computeDivisorParamsS64 (-1) = ⟨1, 0, -1, true, 0⟩ from by decide]
    exact intDivS_unit_neg 64 (by norm_num) a h1 h2

/-- Witness for `intDiv_unit_divisor_spec` at concrete lanes. -/
theorem intDiv_unit_divisor_spec_witness :
    intDivU 8 200 (computeDivisorParamsU8 1) = 200 ∧
    intDivS 8 (-100) (computeDivisorParamsS8 1) = -100 ∧
    intDivS 8 100 (computeDivisorParamsS8 (-1)) = -100 :=
  ⟨intDiv_unit_divisor_spec.1 200 (by decide),
   intDiv_unit_divisor_spec.2.2.2.2.1 (-100) (by decide) (by decide),
   intDiv_unit_divisor_spec.2.2.2.2.2.2.2.2.1 100 (by decide) (by decide)⟩



/-- `DivideByScalar` for `uint8_t` agrees with the composition of
`ComputeDivisorParams` and `IntDiv`; its power-of-two shortcut computes
the same trailing-zero shift the parameter block records. -/
lemma divideByScalarU8_eq (a d : Nat) :
    divideByScalarU8 a d = intDivU 8 a (computeDivisorParamsU8 d) := by
  by_cases h : isPow2 d
  · simp [divideByScalarU8, computeDivisorParamsU8, intDivU, h]
  · simp [divideByScalarU8, h]


/-- `DivideByScalar` for `uint16_t` agrees with the composition of
`ComputeDivisorParams` and `IntDiv`; its power-of-two shortcut computes
the same trailing-zero shift the parameter block records. -/
lemma divideByScalarU16_eq (a d : Nat) :
    divideByScalarU16 a d = intDivU 16 a (computeDivisorParamsU16 d) := by
  by_cases h : isPow2 d
  · simp [divideByScalarU16, computeDivisorParamsU16, intDivU, h]
  · simp [divideByScalarU16, h]


/-- `DivideByScalar` for `uint32_t` agrees with the composition of
`ComputeDivisorParams` and `IntDiv`; its power-of-two shortcut computes
the same trailing-zero shift the parameter block records. -/
lemma divideByScalarU32_eq (a d : Nat) :
    divideByScalarU32 a d = intDivU 32 a (computeDivisorParamsU32 d) := by
  by_cases h : isPow2 d
  · simp [divideByScalarU32, computeDivisorParamsU32, intDivU, h]
  · simp [divideByScalarU32, h]


/-- `DivideByScalar` for `uint64_t` agrees with the composition of
`ComputeDivisorParams` and `IntDiv`; its power-of-two shortcut computes
the same trailing-zero shift the parameter block records. -/
lemma divideByScalarU64_eq (a d : Nat) :
    divideByScalarU64 a d = intDivU 64 a (computeDivisorParamsU64 d) := by
  by_cases h : isPow2 d
  · simp [divideByScalarU64, computeDivisorParamsU64, intDivU, h]
  · simp [divideByScalarU64, h]



/-- C9: for every lane type and non-zero divisor, `DivideByScalar` equals
`IntDiv` composed with `ComputeDivisorParams` (also on the power-of-two
shortcut), and `FloorDivideByScalar` equals `IntDivFloor` composed with
`ComputeDivisorParams`. -/
theorem divideByScalar_equiv_spec :
    (∀ a d : Nat, a < 2 ^ 8 → 0 < d → d < 2 ^ 8 →
      divideByScalarU8 a d = intDivU 8 a (computeDivisorParamsU8 d)) ∧
    (∀ a d : Nat, a < 2 ^ 16 → 0 < d → d < 2 ^ 16 →
      divideByScalarU16 a d = intDivU 16 a (computeDivisorParamsU16 d)) ∧
    (∀ a d : Nat, a < 2 ^ 32 → 0 < d → d < 2 ^ 32 →
      divideByScalarU32 a d = intDivU 32 a (computeDivisorParamsU32 d)) ∧
    (∀ a d : Nat, a < 2 ^ 64 → 0 < d → d < 2 ^ 64 →
      divideByScalarU64 a d = intDivU 64 a (computeDivisorParamsU64 d)) ∧
    (∀ a d : Int, -(2 ^ 7) ≤ a → a < 2 ^ 7 → d ≠ 0 →
      divideByScalarS8 a d = intDivS 8 a (computeDivisorParamsS8 d)) ∧
    (∀ a d : Int, -(2 ^ 15) ≤ a → a < 2 ^ 15 → d ≠ 0 →
      divideByScalarS16 a d = intDivS 16 a (computeDivisorParamsS16 d)) ∧
    (∀ a d : Int, -(2 ^ 31) ≤ a → a < 2 ^ 31 → d ≠ 0 →
      divideByScalarS32 a d = intDivS 32 a (computeDivisorParamsS32 d)) ∧
    (∀ a d : Int, -(2 ^ 63) ≤ a → a < 2 ^ 63 → d ≠ 0 →
      divideByScalarS64 a d = intDivS 64 a (computeDivisorParamsS64 d)) ∧
    (∀ a d : Nat, a < 2 ^ 8 → 0 < d → d < 2 ^ 8 →
      floorDivideByScalarU8 a d = intDivFloorU 8 a (computeDivisorParamsU8 d)) ∧
    (∀ a d : Nat, a < 2 ^ 16 → 0 < d → d < 2 ^ 16 →
      floorDivideByScalarU16 a d = intDivFloorU 16 a (computeDivisorParamsU16 d)) ∧
    (∀ a d : Nat, a < 2 ^ 32 → 0 < d → d < 2 ^ 32 →
      floorDivideByScalarU32 a d = intDivFloorU 32 a (computeDivisorParamsU32 d)) ∧
    (∀ a d : Nat, a < 2 ^ 64 → 0 < d → d < 2 ^ 64 →
      floorDivideByScalarU64 a d = intDivFloorU 64 a (computeDivisorParamsU64 d)) ∧
    (∀ a d : Int, -(2 ^ 7) ≤ a → a < 2 ^ 7 → d ≠ 0 →
      floorDivideByScalarS8 a d = intDivFloorS 8 a (computeDivisorParamsS8 d)) ∧
    (∀ a d : Int, -(2 ^ 15) ≤ a → a < 2 ^ 15 → d ≠ 0 →
      floorDivideByScalarS16 a d = intDivFloorS 16 a (computeDivisorParamsS16 d)) ∧
    (∀ a d : Int, -(2 ^ 31) ≤ a → a < 2 ^ 31 → d ≠ 0 →
      floorDivideByScalarS32 a d = intDivFloorS 32 a (computeDivisorParamsS32 d)) ∧
    (∀ a d : Int, -(2 ^ 63) ≤ a → a < 2 ^ 63 → d ≠ 0 →
      floorDivideByScalarS64 a d = intDivFloorS 64 a (computeDivisorParamsS64 d)) := by
  refine ⟨fun a d _ _ _ => divideByScalarU8_eq a d,
    fun a d _ _ _ => divideByScalarU16_eq a d,
    fun a d _ _ _ => divideByScalarU32_eq a d,
    fun a d _ _ _ => divideByScalarU64_eq a d,
    fun a d _ _ _ => rfl, fun a d _ _ _ => rfl,
    fun a d _ _ _ => rfl, fun a d _ _ _ => rfl,
    fun a d _ _ _ => divideByScalarU8_eq a d,
    fun a d _ _ _ => divideByScalarU16_eq a d,
    fun a d _ _ _ => divideByScalarU32_eq a d,
    fun a d _ _ _ => divideByScalarU64_eq a d,
    fun a d _ _ _ => rfl, fun a d _ _ _ => rfl,
    fun a d _ _ _ => rfl, fun a d _ _ _ => rfl⟩

/-- Witness for `divideByScalar_equiv_spec` at concrete lanes, including a
power-of-two divisor where the shortcut fires. -/
theorem divideByScalar_equiv_spec_witness :
    divideByScalarU8 200 7 = intDivU 8 200 (computeDivisorParamsU8 7) ∧
    divideByScalarU8 200 16 = intDivU 8 200 (computeDivisorParamsU8 16) ∧
    floorDivideByScalarS8 (-7) 3 = intDivFloorS 8 (-7) (computeDivisorParamsS8 3) :=
  ⟨divideByScalar_equiv_spec.1 200 7 (by decide) (by decide) (by decide),
   divideByScalar_equiv_spec.1 200 16 (by decide) (by decide) (by decide),
   divideByScalar_equiv_spec.2.2.2.2.2.2.2.2.2.2.2.2.1 (-7) 3 (by decide)
     (by decide) (by decide)⟩



/-- C1: the unsigned multiplier path is not exact at lane width 8: with
divisor 129 (any non-power-of-two divisor in `[129, 254]` behaves alike)
the code divides 1 by 129 and returns 1, while exact division gives 0.
The repository test suite exercises such divisors (`T(1000)` truncates to
232 for `uint8_t`) and requires the exact quotient. -/
theorem intDivU8_d129_misdivides :
    intDivU 8 1 (computeDivisorParamsU8 129) = 1 ∧ (1 : Nat) / 129 = 0 := by
  decide

/-- C2: the signed multiplier path is not exact at lane width 8: with
divisor 3 the code divides 7 by 3 and returns 5, while the truncating
quotient is 2 (the stored `int16_t` multiplier 171 stays positive where
the algorithm needs the wrapped negative value).  The repository test
suite asserts the exact truncating quotient for `int8_t` divisor 3. -/
theorem intDivS8_d3_misdivides :
    intDivS 8 7 (computeDivisorParamsS8 3) = 5 ∧ Int.tdiv 7 3 = 2 := by
  decide

/-- C3: signed floor division inherits the broken truncating quotient at
lane width 8: with divisor 3 the code maps -7 to -6, while the floor of
-7/3 is -3. -/
theorem intDivFloorS8_d3_misdivides :
    intDivFloorS 8 (-7) (computeDivisorParamsS8 3) = -6 ∧
    Int.fdiv (-7) 3 = -3 := by
  decide

/-- C4: for every signed lane width, dividing the minimum value by -1
through the derived parameter block returns the minimum value
(wrap-around), via the power-of-two path and wrapping negation. -/
theorem intDivS_intMin_div_neg1_wraps :
    intDivS 8 (-(2 ^ 7)) (computeDivisorParamsS8 (-1)) = -(2 ^ 7) ∧
    intDivS 16 (-(2 ^ 15)) (computeDivisorParamsS16 (-1)) = -(2 ^ 15) ∧
    intDivS 32 (-(2 ^ 31)) (computeDivisorParamsS32 (-1)) = -(2 ^ 31) ∧
    intDivS 64 (-(2 ^ 63)) (computeDivisorParamsS64 (-1)) = -(2 ^ 63) := by
  decide

/-- C5, counterexample: for the minimum `int8_t` divisor the returned
parameter block does not carry the hardcoded multiplier `0x81` with
shift 6; the power-of-two branch fires first. -/
theorem computeDivisorParamsS_min_not_hardcoded :
    ¬ ((computeDivisorParamsS8 (-(2 ^ 7))).multiplier = 0x81 ∧
       (computeDivisorParamsS8 (-(2 ^ 7))).shift = 6) := by
  decide

/-- C5, amended: for the minimum signed divisor at every width the
magnitude `2^(W-1)` is a power of two, so the block returned is the
power-of-two block (`multiplier = 1`, `shift = 0`, `is_pow2 = true`,
`pow2_shift = W - 1`); the hardcoded `(top bit + 1, W - 2)` branch is
unreachable. -/
theorem computeDivisorParamsS_min_pow2_block :
    computeDivisorParamsS8 (-(2 ^ 7)) = ⟨1, 0, -(2 ^ 7), true, 7⟩ ∧
    computeDivisorParamsS16 (-(2 ^ 15)) = ⟨1, 0, -(2 ^ 15), true, 15⟩ ∧
    computeDivisorParamsS32 (-(2 ^ 31)) = ⟨1, 0, -(2 ^ 31), true, 31⟩ ∧
    computeDivisorParamsS64 (-(2 ^ 63)) = ⟨1, 0, -(2 ^ 63), true, 63⟩ := by
  decide

/-- C8: the portable fallback branch of `DivideHighBy` is not the exact
`((high << 64) / divisor) mod 2^64`: at `high = 1`,
`divisor = 2^32 + 1` it returns 0 where the 128-bit branch (the exact
value) returns `2^32 - 1`; its second quotient digit is an uncorrected
estimate.  The three sanity values of the spec do hold on the fallback. -/
theorem divideHighByPortable_inexact :
    divideHighByPortable 1 4294967297 = 0 ∧
    divideHighBy 1 4294967297 = 4294967295 ∧
    divideHighByPortable 1 3 = 0x5555555555555555 ∧
    divideHighByPortable (2 ^ 63) (2 ^ 63) = 0 ∧
    divideHighByPortable 1 (2 ^ 64 - 1) = 1 := by
  decide

/-- C10: for every signed lane width, floor division of the minimum value
by -1 also returns the minimum value: the truncating quotient wraps to
the minimum, the wrapping product `q * d` reproduces the dividend, so
the floor correction subtracts nothing. -/
theorem intDivFloorS_intMin_div_neg1 :
    (intDivS 8 (-(2 ^ 7)) (computeDivisorParamsS8 (-1)) = -(2 ^ 7) ∧
     wrapS 8 (-(2 ^ 7) * -1) = -(2 ^ 7) ∧
     intDivFloorS 8 (-(2 ^ 7)) (computeDivisorParamsS8 (-1)) = -(2 ^ 7)) ∧
    (intDivS 16 (-(2 ^ 15)) (computeDivisorParamsS16 (-1)) = -(2 ^ 15) ∧
     wrapS 16 (-(2 ^ 15) * -1) = -(2 ^ 15) ∧
     intDivFloorS 16 (-(2 ^ 15)) (computeDivisorParamsS16 (-1)) = -(2 ^ 15)) ∧
    (intDivS 32 (-(2 ^ 31)) (computeDivisorParamsS32 (-1)) = -(2 ^ 31) ∧
     wrapS 32 (-(2 ^ 31) * -1) = -(2 ^ 31) ∧
     intDivFloorS 32 (-(2 ^ 31)) (computeDivisorParamsS32 (-1)) = -(2 ^ 31)) ∧
    (intDivS 64 (-(2 ^ 63)) (computeDivisorParamsS64 (-1)) = -(2 ^ 63) ∧
     wrapS 64 (-(2 ^ 63) * -1) = -(2 ^ 63) ∧
     intDivFloorS 64 (-(2 ^ 63)) (computeDivisorParamsS64 (-1)) = -(2 ^ 63)) := by
  decide


end Intdiv
